import Mathlib

/-!
Shallow embedding of `fylearn/rafpc.py` (RandomAgreementFuzzyPatternClassifier).

Numbers are modelled by `ℚ` (exact arithmetic in place of IEEE doubles); a
matrix entry is `Option ℚ`, where `none` models a missing value (NaN), so that
the `nanmean`/`nanmin`/`nanmax` statistics can skip missing entries exactly as
numpy's nan-aware reductions do.  The square root appearing only in the scalar
component of `agreement_fuzzy` is modelled by `Real.sqrt`.
-/

namespace Rafpc

/-- A feature value: `none` models a missing value (NaN). -/
abbrev FVal := Option ℚ

/-- A feature matrix: a list of rows, entries may be missing. -/
abbrev Mat := List (List FVal)

/-- Number of columns of a matrix (width of its first row, as in a
rectangular numpy 2-D array). -/
def ncols (A : Mat) : ℕ := (A.headD []).length

/-- The present (non-missing) values of column `j`, in row order.  This is the
data over which numpy's nan-aware column statistics operate. -/
def col (A : Mat) (j : ℕ) : List ℚ := A.filterMap (fun row => row.getD j none)

/-- Arithmetic mean of a list of rationals (`sum/len`; `0` on the empty list,
where numpy would produce NaN). -/
def qmean (l : List ℚ) : ℚ := l.sum / l.length

/-- Minimum of a list of rationals (`0` on the empty list). -/
def listMinQ : List ℚ → ℚ
  | [] => 0
  | a :: t => t.foldl min a

/-- Maximum of a list of rationals (`0` on the empty list). -/
def listMaxQ : List ℚ → ℚ
  | [] => 0
  | a :: t => t.foldl max a

/-- `np.nanmean(A, 0)` for a single column `j`: mean of the present values. -/
def nanmeanCol (A : Mat) (j : ℕ) : ℚ := qmean (col A j)

/-- `np.nanmin(A, 0)` for a single column `j`. -/
def nanminCol (A : Mat) (j : ℕ) : ℚ := listMinQ (col A j)

/-- `np.nanmax(A, 0)` for a single column `j`. -/
def nanmaxCol (A : Mat) (j : ℕ) : ℚ := listMaxQ (col A j)

/-- `np.nanmean(A, 0)`: the vector of column-wise missing-value-ignoring
means. -/
def colMeans (A : Mat) : List ℚ := (List.range (ncols A)).map (nanmeanCol A)

/-- `d = (S_A - S_B) ** 2` from `agreement_fuzzy`: the vector of per-feature
squared differences of the column-wise nan-ignoring means. -/
def dvec (A B : Mat) : List ℚ :=
  List.zipWith (fun a b => (a - b) ^ 2) (colMeans A) (colMeans B)

/-- The second component `1.0 - d` returned by `agreement_fuzzy`: the
per-feature score vector. -/
def agreement_scores (A B : Mat) : List ℚ := (dvec A B).map (fun x => 1 - x)

/-- `agreement_fuzzy(A, B)` from `rafpc.py`:
`d = (S_A - S_B)**2; rmse = 1.0 - np.sqrt(np.mean(d)); return rmse, 1.0 - d`.
The scalar component needs `Real.sqrt`, hence lives in `ℝ`. -/
noncomputable def agreement_fuzzy (A B : Mat) : ℝ × List ℚ :=
  (1 - Real.sqrt ((((dvec A B).map (fun q => (q : ℝ))).sum / ((dvec A B).length : ℝ))),
   agreement_scores A B)

/-- The spec's description of the fuzzy agreement statistic, written from the
spec's words (§4.2): column-wise means of A and B ignoring missing values,
per-feature squared difference `d_i = (mean_A_i - mean_B_i)^2`, scalar
agreement `1 - sqrt(mean(d))`, per-feature score vector `1 - d`. -/
noncomputable def agreement_fuzzy_spec (A B : Mat) : ℝ × List ℚ :=
  let mean_A : List ℚ := (List.range (ncols A)).map (fun i => qmean (col A i))
  let mean_B : List ℚ := (List.range (ncols B)).map (fun i => qmean (col B i))
  let d : List ℚ := List.zipWith (fun a b => (a - b) ^ 2) mean_A mean_B
  (1 - Real.sqrt ((d.map (fun q => (q : ℝ))).sum / (d.length : ℝ)),
   d.map (fun x => 1 - x))

/-- Modelled from the spec: `fl.TriangularSet` of the fuzzy-logic collaborator
module (`fylearn/fuzzylogic.py`, not part of the sources here).  Per spec §3:
an immutable triangular membership function defined by three breakpoints
(left, peak, right). -/
structure TriangularSet where
  left : ℚ
  peak : ℚ
  right : ℚ
deriving DecidableEq

/-- Modelled from the spec: point-wise evaluation of a triangular membership
function (spec §3): degree 0 outside `[left, right]`, 1 at the peak, linear in
between; in the degenerate case `left = peak = right` it is the point
indicator of the peak. -/
def TriangularSet.eval (t : TriangularSet) (x : ℚ) : ℚ :=
  if x = t.peak then 1
  else if x < t.peak then (if x ≤ t.left then 0 else (x - t.left) / (t.peak - t.left))
  else (if t.right ≤ x then 0 else (t.right - x) / (t.right - t.peak))

/-- `triangular_factory(*args)`: builds a `TriangularSet` from the three
breakpoints. -/
def triangular_factory (a b c : ℚ) : TriangularSet := ⟨a, b, c⟩

/-- `build_memberships(X, idxs, factory)` from `rafpc.py`: for each requested
feature index `i`, the pair of `i` and the factory applied to
`means[i] - (maxs[i] - mins[i])/2`, `means[i]`, `means[i] + (maxs[i] - mins[i])/2`,
where the statistics are the nan-ignoring column statistics of `X`. -/
def build_memberships {μ : Type} (X : Mat) (idxs : List ℕ)
    (factory : ℚ → ℚ → ℚ → μ) : List (ℕ × μ) :=
  idxs.map (fun i =>
    (i, factory (nanmeanCol X i - ((nanmaxCol X i - nanminCol X i) / 2))
        (nanmeanCol X i)
        (nanmeanCol X i + ((nanmaxCol X i - nanminCol X i) / 2))))

/-- Comparison of indices by the key list they index into; the order
underlying `np.argsort`. -/
def keyLe (ks : List ℚ) (i j : ℕ) : Prop := ks.getD i 0 ≤ ks.getD j 0

instance (ks : List ℚ) : DecidableRel (keyLe ks) :=
  fun i j => inferInstanceAs (Decidable (_ ≤ _))

instance (ks : List ℚ) : IsTotal ℕ (keyLe ks) := ⟨fun i j => le_total _ _⟩

instance (ks : List ℚ) : IsTrans ℕ (keyLe ks) := ⟨fun _ _ _ h h2 => le_trans h h2⟩

/-- `np.argsort(ks)`: the indices `0..len-1` sorted by ascending key.  numpy's
default quicksort is some permutation sorting the keys; we model the stable
such permutation, which produces the same key values at every rank. -/
def argsort (ks : List ℚ) : List ℕ :=
  List.insertionSort (keyLe ks) (List.range ks.length)

/-- Ascending sort of a list of rationals. -/
def sortAscQ (l : List ℚ) : List ℚ := List.insertionSort (· ≤ ·) l

/-- The reversed order on `ℚ`, for descending sorts. -/
def qGe (a b : ℚ) : Prop := b ≤ a

instance : DecidableRel qGe := fun a b => inferInstanceAs (Decidable (_ ≤ _))

instance : IsTotal ℚ qGe := ⟨fun a b => le_total b a⟩

instance : IsTrans ℚ qGe := ⟨fun _ _ _ h h2 => le_trans h2 h⟩

instance : IsAntisymm ℚ qGe := ⟨fun _ _ h h2 => le_antisymm h2 h⟩

/-- Descending sort of a list of rationals. -/
def sortDescQ (l : List ℚ) : List ℚ := List.insertionSort qGe l

/-- The `k`-th largest element of a list (`k = 1` is the maximum): the
`(k-1)`-th entry of the descending sort.  This is the "`n_agreeing`-th best
per-feature score" of the spec. -/
def kthLargest (l : List ℚ) (k : ℕ) : ℚ := (sortDescQ l).getD (k - 1) 0

/-- Modelled from the spec: a hash driving the seedable pseudo-random source
(`numpy.random.RandomState`, an external collaborator per spec §1); only
determinism given the seed matters to the claims, not the distribution. -/
def rsHash (s i : ℕ) : ℕ := ((s + i + 1) * 1103515245 + 12345) % 2147483648

/-- Modelled from the spec: `rs.permutation(n)` of the seedable pseudo-random
source — a deterministic permutation of `0..n-1` computed from the generator
state `s` (argsort of pseudo-random keys). -/
def rsPermutation (s n : ℕ) : List ℕ :=
  argsort ((List.range n).map (fun i => (rsHash s i : ℚ)))

/-- Modelled from the spec: the state transition of the seedable pseudo-random
source after one `permutation` call. -/
def rsNext (s : ℕ) : ℕ := (s * 1664525 + 1013904223) % 4294967296

/-- Modelled from the spec: `fl.mean` of the fuzzy-logic collaborator, the
default aggregation operator — the arithmetic mean across a vector of
membership degrees (spec glossary). -/
def flMean (l : List ℚ) : ℚ := l.sum / l.length

/-- numpy's ordering on label values used by `np.unique`'s sort: NaN sorts
after every number. -/
def labelLeb : FVal → FVal → Bool
  | some a, some b => decide (a ≤ b)
  | some _, none => true
  | none, some _ => false
  | none, none => true

/-- numpy's elementwise `==` on label values: NaN compares unequal to
everything, including itself. -/
def numEqb : FVal → FVal → Bool
  | some a, some b => decide (a = b)
  | _, _ => false

/-- Sort of the label vector, as performed inside `np.unique`. -/
def sortLabels (y : List FVal) : List FVal :=
  List.insertionSort (fun a b => labelLeb a b = true) y

/-- Drop adjacent duplicates of a sorted list, comparing neighbours with
numpy's `==` (so adjacent NaNs are not merged), as `np.unique` does. -/
def dedupAdjAux (prev : FVal) : List FVal → List FVal
  | [] => []
  | b :: rest => if numEqb prev b then dedupAdjAux b rest else b :: dedupAdjAux b rest

/-- See `dedupAdjAux`; the first element of the sorted list is always kept. -/
def dedupAdj : List FVal → List FVal
  | [] => []
  | a :: rest => a :: dedupAdjAux a rest

/-- Index of the first structurally equal element (position of a label among
the unique class values). -/
def idxOfF (v : FVal) : List FVal → ℕ
  | [] => 0
  | c :: rest => if v = c then 0 else idxOfF v rest + 1

/-- `np.unique(y, return_inverse=True)`: the sorted unique class values
together with the vector mapping each label to its class index. -/
def uniqueWithInverse (y : List FVal) : List FVal × List ℕ :=
  let cs := dedupAdj (sortLabels y)
  (cs, y.map (fun v => idxOfF v cs))

/-- `np.nan in classes_`: numpy evaluates this as `(classes_ == np.nan).any()`,
an elementwise IEEE comparison with NaN. -/
def nanInClasses (cs : List FVal) : Bool := cs.any (fun c => numEqb none c)

/-- A prototype: an ordered sequence of (feature index, membership function)
pairs, as produced by `build_memberships`. -/
abbrev Proto := List (ℕ × TriangularSet)

/-- The classifier object: the constructor parameters together with the
attributes set by `fit` (`classes_`, `protos_`).  `protos_ = none` models the
attribute not having been assigned yet (it is not set in `__init__`). -/
structure RafpcState where
  n_samples : ℕ
  sample_length : ℕ
  aggregation : List ℚ → ℚ
  membership_factory : ℚ → ℚ → ℚ → TriangularSet
  n_agreeing : Option ℕ
  epsilon : ℚ
  random_state : ℕ
  classes_ : List FVal
  protos_ : Option (List (List Proto))

/-- `__init__`: stores the configuration; the fitted attributes are unset. -/
def initState (ns sl : ℕ) (agg : List ℚ → ℚ) (fac : ℚ → ℚ → ℚ → TriangularSet)
    (nag : Option ℕ) (eps : ℚ) (seed : ℕ) : RafpcState :=
  { n_samples := ns, sample_length := sl, aggregation := agg,
    membership_factory := fac, n_agreeing := nag, epsilon := eps,
    random_state := seed, classes_ := [], protos_ := none }

/-- The result dictionary of `get_params`. -/
structure RafpcParams where
  aggregation : List ℚ → ℚ
  n_agreeing : Option ℕ
  n_samples : ℕ
  sample_length : ℕ
  epsilon : ℚ
  membership_factory : ℚ → ℚ → ℚ → TriangularSet
  random_state : ℕ

/-- `get_params`: reads the stored hyperparameters back from the object. -/
def get_params (m : RafpcState) : RafpcParams :=
  { aggregation := m.aggregation, n_agreeing := m.n_agreeing,
    n_samples := m.n_samples, sample_length := m.sample_length,
    epsilon := m.epsilon, membership_factory := m.membership_factory,
    random_state := m.random_state }

/-- `sample = X_class[rs.permutation(len(X_class))[:n_samples * 2]]`:
the first `2 * n_samples` rows of the permuted class rows. -/
def sampleOf (ns : ℕ) (Xc : Mat) (perm : List ℕ) : Mat :=
  (perm.take (2 * ns)).map (fun i => Xc.getD i [])

/-- The per-feature score vector `d` of one trial
(`agreement, d = agreement_fuzzy(sample1, sample2)` — the code's variable `d`
holds the second, vector component). -/
def scoresOf (ns : ℕ) (Xc : Mat) (perm : List ℕ) : List ℚ :=
  agreement_scores ((sampleOf ns Xc perm).take ns) ((sampleOf ns Xc perm).drop ns)

/-- `ranking = np.argsort(1.0 - d)[:n_agreeing]` of one trial. -/
def rankingOf (ns nag : ℕ) (Xc : Mat) (perm : List ℕ) : List ℕ :=
  (argsort ((scoresOf ns Xc perm).map (fun s => 1 - s))).take nag

/-- One trial of the fit loop: draw the sample along `perm`, rank the features
by agreement, and append a prototype to the pool when
`lastrank = d[ranking[-1]]` reaches `epsilon`. -/
def trial (ns : ℕ) (eps : ℚ) (fac : ℚ → ℚ → ℚ → TriangularSet) (nag : ℕ)
    (Xc : Mat) (perm : List ℕ) (pool : List Proto) : List Proto :=
  let d := scoresOf ns Xc perm
  let ranking := rankingOf ns nag Xc perm
  let lastrank := d.getD (ranking.getLastD 0) 0
  if eps ≤ lastrank then
    pool ++ [build_memberships (sampleOf ns Xc perm) ranking fac]
  else pool

/-- `for x in range(sample_length)`: run the given number of trials for one
class, threading the random-source state. -/
def runTrials (ns : ℕ) (eps : ℚ) (fac : ℚ → ℚ → ℚ → TriangularSet) (nag : ℕ)
    (Xc : Mat) : ℕ → List Proto → ℕ → List Proto × ℕ
  | 0, pool, s => (pool, s)
  | t + 1, pool, s =>
      runTrials ns eps fac nag Xc t
        (trial ns eps fac nag Xc (rsPermutation s Xc.length) pool) (rsNext s)

/-- `X_class = X[y == class_idx]`: the rows of `X` whose inverse label index
equals `c`. -/
def classRows (X : Mat) (inv : List ℕ) (c : ℕ) : Mat :=
  (X.zip inv).filterMap (fun p => if p.2 = c then some p.1 else none)

/-- The per-class loop of `fit`: one prototype pool per class index, threading
the random-source state across classes in order. -/
def fitClasses (ns sl : ℕ) (eps : ℚ) (fac : ℚ → ℚ → ℚ → TriangularSet)
    (nag : ℕ) (X : Mat) (inv : List ℕ) : List ℕ → ℕ → List (List Proto) × ℕ
  | [], s => ([], s)
  | c :: cs, s =>
      let pr := runTrials ns eps fac nag (classRows X inv c) sl [] s
      let rest := fitClasses ns sl eps fac nag X inv cs pr.2
      (pr.1 :: rest.1, rest.2)

/-- `fit(X, y)` from `rafpc.py`: compute `classes_` and the inverse label
vector, run the (ineffective) NaN-label guard, default `n_agreeing` to the
feature count when unset, validate it against the feature count, then fill the
per-class prototype pools.  Exceptions are modelled by `Except.error`. -/
def fit (m : RafpcState) (X : Mat) (y : List FVal) : Except String RafpcState :=
  let u := uniqueWithInverse y
  if nanInClasses u.1 then Except.error "NaN not supported in class values"
  else
    let nag := m.n_agreeing.getD (ncols X)
    if ncols X < nag then
      Except.error "Number of agreeing features must be less than or equal to number of features in X"
    else
      Except.ok { m with
        n_agreeing := some nag,
        classes_ := u.1,
        protos_ := some (fitClasses m.n_samples m.sample_length m.epsilon
          m.membership_factory nag X u.2 (List.range u.1.length) m.random_state).1 }

/-- The default membership function value used to totalize list indexing. -/
def defaultTri : TriangularSet := ⟨0, 0, 0⟩

/-- One row of `Mus` in `predict`: `Mus = np.zeros(X.shape)` and then
`Mus[:, i] = f_f(X[:, f_idx])` for `i in range(n_agreeing)` — the row has the
width of `X` and its columns past `n_agreeing` remain zero. -/
def musRow (nag width : ℕ) (x : List ℚ) (cp : Proto) : List ℚ :=
  (List.range width).map (fun i =>
    if i < nag then
      TriangularSet.eval (cp.getD i (0, defaultTri)).2 (x.getD (cp.getD i (0, defaultTri)).1 0)
    else 0)

/-- The per-row score of one prototype in `predict`:
`C[:, j] = self.aggregation(Mus)` — the aggregation applied to the prototype's
`Mus` row. -/
def protoScore (agg : List ℚ → ℚ) (nag : ℕ) (x : List ℚ) (cp : Proto) : ℚ :=
  agg (musRow nag x.length x cp)

/-- The `n_agreeing`-wide vector of membership degrees of a prototype on one
row, as described by the spec (§4.4): each membership function evaluated on
its feature's value. -/
def membershipDegrees (x : List ℚ) (cp : Proto) : List ℚ :=
  cp.map (fun p => TriangularSet.eval p.2 (x.getD p.1 0))

/-- Scan for `np.argmax`: index of the first occurrence of the maximum. -/
def argmaxAux : List ℚ → ℚ → ℕ → ℕ → ℕ
  | [], _, bi, _ => bi
  | a :: rest, best, bi, ci =>
      if best < a then argmaxAux rest a ci (ci + 1) else argmaxAux rest best bi (ci + 1)

/-- `np.argmax` over a vector: first index attaining the maximum (`0` on the
empty vector). -/
def argmaxFirst : List ℚ → ℕ
  | [] => 0
  | a :: rest => argmaxAux rest a 0 1

/-- `predict(X)` from `rafpc.py`.  Accessing the never-initialized `protos_`
attribute on an unfitted model fails (AttributeError; the `is None` guard in
the source could only fire if the attribute existed).  `np.max(C, 1)` over a
class with an empty prototype pool is a zero-size reduction without identity
and raises.  Otherwise each row is labelled by the class whose best prototype
score is largest, first class winning ties. -/
def predict (m : RafpcState) (X : List (List ℚ)) : Except String (List FVal) :=
  match m.protos_ with
  | none => Except.error "AttributeError: object has no attribute protos_"
  | some pools =>
    if pools.any (fun pool => pool.isEmpty) then
      Except.error "zero-size array to reduction operation maximum which has no identity"
    else
      let nag := m.n_agreeing.getD 0
      Except.ok (X.map (fun x =>
        let R := pools.map (fun pool =>
          listMaxQ (pool.map (fun cp => protoScore m.aggregation nag x cp)))
        m.classes_.getD (argmaxFirst R) none))

/-- The fitted state produced by a successful `fit` run (the `Except.ok`
payload of `fit`). -/
def fitSuccState (m : RafpcState) (X : Mat) (y : List FVal) : RafpcState :=
  let u := uniqueWithInverse y
  let nag := m.n_agreeing.getD (ncols X)
  { m with
    n_agreeing := some nag,
    classes_ := u.1,
    protos_ := some (fitClasses m.n_samples m.sample_length m.epsilon
      m.membership_factory nag X u.2 (List.range u.1.length) m.random_state).1 }

/-- A small concrete configuration used to exercise the model on concrete
inputs: `n_samples = 1`, `sample_length = 1`, mean aggregation, triangular
factory, `n_agreeing = 1`, `epsilon = 4/5`, seed `0`. -/
def exampleCfg : RafpcState := initState 1 1 flMean triangular_factory (some 1) (4/5) 0

/-- Concrete training matrix whose class `0` rows disagree strongly (means 0
and 10) and whose class `1` rows agree exactly. -/
def cex5X : Mat := [[some 0], [some 10], [some 5], [some 5]]

/-- Labels for `cex5X`. -/
def cex5Y : List FVal := [some 0, some 0, some 1, some 1]

/-- The model fitted on `cex5X`/`cex5Y`: class `0` ends fit with an empty
prototype pool, class `1` with one prototype. -/
def cex5M : RafpcState := ((fit exampleCfg cex5X cex5Y).toOption).getD exampleCfg

/-- A configuration with the `n_agreeing = None` sentinel ("use all
features"). -/
def cex10Cfg : RafpcState := initState 1 1 flMean triangular_factory none (4/5) 0

/-- A one-row, two-feature training matrix. -/
def cex10X : Mat := [[some 1, some 2]]

/-- Label for `cex10X`. -/
def cex10Y : List FVal := [some 0]

/-- The model fitted with the `None` sentinel on the two-feature matrix. -/
def cex10M : RafpcState := ((fit cex10Cfg cex10X cex10Y).toOption).getD cex10Cfg

/-! ### Helper lemmas -/

/-- The NaN-label guard of `fit` can never fire: numpy's `in` compares with
`==`, and NaN is equal to nothing, itself included. -/
theorem nanInClasses_eq_false (cs : List FVal) : nanInClasses cs = false := by
  simp only [nanInClasses, List.any_eq_false]
  intro c _
  cases c <;> simp [numEqb]

/-- Unfolding of `fit`: the NaN guard never triggers, so `fit` errors exactly
when the (defaulted) `n_agreeing` exceeds the feature count and otherwise
returns the fitted state. -/
theorem fit_eq (m : RafpcState) (X : Mat) (y : List FVal) :
    fit m X y =
      if ncols X < m.n_agreeing.getD (ncols X) then
        Except.error "Number of agreeing features must be less than or equal to number of features in X"
      else Except.ok (fitSuccState m X y) := by
  simp [fit, fitSuccState, nanInClasses_eq_false]

theorem getD_default_irrel {α : Type} (l : List α) (n : ℕ) (h : n < l.length)
    (d d2 : α) : l.getD n d = l.getD n d2 := by
  simp [List.getD_eq_getElem?_getD, List.getElem?_eq_getElem h]

theorem getD_eq_getElem {α : Type} (l : List α) (n : ℕ) (h : n < l.length)
    (d : α) : l.getD n d = l[n] := by
  simp [List.getD_eq_getElem?_getD, List.getElem?_eq_getElem h]

theorem getLastD_eq_getD {α : Type} (l : List α) (d : α) :
    l.getLastD d = l.getD (l.length - 1) d := by
  cases l with
  | nil => rfl
  | cons a t =>
    simp [List.getLastD_eq_getLast?, List.getLast?_eq_getElem?,
      List.getD_eq_getElem?_getD]

theorem length_argsort (ks : List ℚ) : (argsort ks).length = ks.length := by
  simp [argsort, List.length_insertionSort]

theorem argsort_perm_range (ks : List ℚ) :
    List.Perm (argsort ks) (List.range ks.length) :=
  List.perm_insertionSort _ _

theorem mem_argsort_lt (ks : List ℚ) (i : ℕ) (h : i ∈ argsort ks) :
    i < ks.length := by
  have h2 := (argsort_perm_range ks).mem_iff.mp h
  simpa [List.mem_range] using h2

theorem map_getD_range (ks : List ℚ) :
    (List.range ks.length).map (fun i => ks.getD i 0) = ks := by
  apply List.ext_getElem
  · simp
  · intro i h1 h2
    simp [getD_eq_getElem ks i h2, List.getElem?_eq_getElem h2]

theorem sorted_argsort (ks : List ℚ) : List.Sorted (keyLe ks) (argsort ks) := by
  unfold argsort
  exact List.sorted_insertionSort (keyLe ks) (List.range ks.length)

theorem map_key_argsort (ks : List ℚ) :
    (argsort ks).map (fun i => ks.getD i 0) = sortAscQ ks := by
  have hperm : List.Perm ((argsort ks).map (fun i => ks.getD i 0)) (sortAscQ ks) := by
    have p1 : List.Perm ((argsort ks).map (fun i => ks.getD i 0))
        ((List.range ks.length).map (fun i => ks.getD i 0)) :=
      (argsort_perm_range ks).map _
    have p2 : List.Perm ks (sortAscQ ks) := (List.perm_insertionSort _ ks).symm
    rw [map_getD_range ks] at p1
    exact p1.trans p2
  have hs1 : List.Sorted (fun a b : ℚ => a ≤ b)
      ((argsort ks).map (fun i => ks.getD i 0)) :=
    List.Pairwise.map _ (fun a b h => h) (sorted_argsort ks)
  have hs2 : List.Sorted (fun a b : ℚ => a ≤ b) (sortAscQ ks) :=
    List.sorted_insertionSort _ ks
  exact List.eq_of_perm_of_sorted hperm hs1 hs2

theorem sortDescQ_map_one_sub (ks : List ℚ) :
    sortDescQ (ks.map (fun x => 1 - x)) = (sortAscQ ks).map (fun x => 1 - x) := by
  have hperm : List.Perm (sortDescQ (ks.map (fun x => 1 - x)))
      ((sortAscQ ks).map (fun x => 1 - x)) := by
    have p1 : List.Perm (sortDescQ (ks.map (fun x => 1 - x)))
        (ks.map (fun x => 1 - x)) := List.perm_insertionSort _ _
    have p2 : List.Perm (ks.map (fun x => 1 - x))
        ((sortAscQ ks).map (fun x => 1 - x)) :=
      ((List.perm_insertionSort _ ks).symm).map _
    exact p1.trans p2
  have hs1 : List.Sorted qGe (sortDescQ (ks.map (fun x => 1 - x))) :=
    List.sorted_insertionSort qGe _
  have hs2 : List.Sorted qGe ((sortAscQ ks).map (fun x => 1 - x)) :=
    List.Pairwise.map _ (fun a b h => by simp only [qGe]; linarith)
      (List.sorted_insertionSort _ ks)
  exact List.eq_of_perm_of_sorted hperm hs1 hs2

/-- The value `d[ranking[-1]]` computed by one trial — the score at the last
retained rank — is exactly the `k`-th largest per-feature score. -/
theorem lastrank_eq_kthLargest (d : List ℚ) (k : ℕ) (h1 : 1 ≤ k)
    (h2 : k ≤ d.length) :
    d.getD (((argsort (d.map (fun s => 1 - s))).take k).getLastD 0) 0 =
      kthLargest d k := by
  have hlen : (d.map (fun s : ℚ => 1 - s)).length = d.length := by simp
  have hlenA : (argsort (d.map (fun s : ℚ => 1 - s))).length = d.length := by
    rw [length_argsort, hlen]
  have hklt : k - 1 < k :=
    Nat.sub_lt (Nat.lt_of_lt_of_le Nat.zero_lt_one h1) Nat.one_pos
  have hkltA : k - 1 < (argsort (d.map (fun s : ℚ => 1 - s))).length := by
    rw [hlenA]; exact Nat.lt_of_lt_of_le hklt h2
  have htkl : ((argsort (d.map (fun s : ℚ => 1 - s))).take k).length = k := by
    rw [List.length_take, hlenA]; exact Nat.min_eq_left h2
  have hlast : ((argsort (d.map (fun s : ℚ => 1 - s))).take k).getLastD 0 =
      (argsort (d.map (fun s : ℚ => 1 - s))).getD (k - 1) 0 := by
    rw [getLastD_eq_getD, htkl]
    have hkt : k - 1 < ((argsort (d.map (fun s : ℚ => 1 - s))).take k).length := by
      rw [htkl]; exact hklt
    rw [getD_eq_getElem _ _ hkt, getD_eq_getElem _ _ hkltA]
    exact List.getElem_take _
  rw [hlast]
  have hmem : (argsort (d.map (fun s : ℚ => 1 - s))).getD (k - 1) 0 ∈
      argsort (d.map (fun s : ℚ => 1 - s)) := by
    rw [getD_eq_getElem _ _ hkltA]; exact List.getElem_mem _
  have hidxlt : (argsort (d.map (fun s : ℚ => 1 - s))).getD (k - 1) 0 < d.length := by
    rw [← hlen]; exact mem_argsort_lt _ _ hmem
  have hkey : (d.map (fun s : ℚ => 1 - s)).getD
      ((argsort (d.map (fun s : ℚ => 1 - s))).getD (k - 1) 0) 0 =
      1 - d.getD ((argsort (d.map (fun s : ℚ => 1 - s))).getD (k - 1) 0) 0 := by
    rw [getD_eq_getElem _ _ (by rw [hlen]; exact hidxlt),
      getD_eq_getElem d _ hidxlt, List.getElem_map]
  have hmapped : ((argsort (d.map (fun s : ℚ => 1 - s))).map
      (fun i => (d.map (fun s : ℚ => 1 - s)).getD i 0)).getD (k - 1) 0 =
      (d.map (fun s : ℚ => 1 - s)).getD
        ((argsort (d.map (fun s : ℚ => 1 - s))).getD (k - 1) 0) 0 := by
    rw [getD_eq_getElem _ _ (by simpa using hkltA), List.getElem_map,
      getD_eq_getElem _ _ hkltA]
  rw [map_key_argsort] at hmapped
  have hdd : ((d.map (fun s : ℚ => 1 - s)).map (fun x : ℚ => 1 - x)) = d := by
    rw [List.map_map]
    have hcomp : ((fun x : ℚ => 1 - x) ∘ fun s : ℚ => 1 - s) = id := by
      funext x; simp [Function.comp]
    rw [hcomp, List.map_id]
  have hdesc : sortDescQ d =
      (sortAscQ (d.map (fun s : ℚ => 1 - s))).map (fun x : ℚ => 1 - x) := by
    conv_lhs => rw [← hdd]
    exact sortDescQ_map_one_sub _
  have hsalen : k - 1 < (sortAscQ (d.map (fun s : ℚ => 1 - s))).length := by
    rw [sortAscQ, List.length_insertionSort, hlen]
    exact Nat.lt_of_lt_of_le hklt h2
  have hfinal : kthLargest d k =
      1 - (sortAscQ (d.map (fun s : ℚ => 1 - s))).getD (k - 1) 0 := by
    rw [kthLargest, hdesc, getD_eq_getElem _ _ (by simpa using hsalen),
      List.getElem_map, getD_eq_getElem _ _ hsalen]
  rw [hfinal, hmapped, hkey]
  ring

theorem foldl_min_le_init (t : List ℚ) : ∀ a : ℚ, t.foldl min a ≤ a := by
  induction t with
  | nil => intro a; exact le_refl a
  | cons b t ih =>
      intro a
      exact le_trans (ih (min a b)) (min_le_left a b)

theorem init_le_foldl_max (t : List ℚ) : ∀ a : ℚ, a ≤ t.foldl max a := by
  induction t with
  | nil => intro a; exact le_refl a
  | cons b t ih =>
      intro a
      exact le_trans (le_max_left a b) (ih (max a b))

theorem listMinQ_le_listMaxQ (l : List ℚ) (h : l ≠ []) :
    listMinQ l ≤ listMaxQ l := by
  cases l with
  | nil => exact absurd rfl h
  | cons a t =>
      exact le_trans (foldl_min_le_init t a) (init_le_foldl_max t a)

theorem except_isOk_error {ε α : Type} (e : ε) :
    (Except.error e : Except ε α).isOk = false := rfl

theorem except_isOk_ok {ε α : Type} (a : α) :
    (Except.ok a : Except ε α).isOk = true := rfl

/-! ### Claims -/

/-- C3: `agreement_fuzzy(A, B)` returns exactly the pair
`(1 - sqrt(mean d), 1 - d)` with `d_i = (mean_A_i - mean_B_i)^2` over the
column-wise missing-value-ignoring means, as the spec describes it; being a
Lean function of `A` and `B` alone, it is pure and deterministic. -/
theorem c3_agreement_fuzzy_matches_spec (A B : Mat) :
    agreement_fuzzy A B = agreement_fuzzy_spec A B := rfl

/-- C9: on any sample paired with itself (at least one row, no all-missing
column), the per-feature score vector of `agreement_fuzzy` is identically 1. -/
theorem c9_self_agreement_scores_one (A : Mat) (h1 : A ≠ [])
    (h2 : ∀ j < ncols A, col A j ≠ []) :
    (agreement_fuzzy A A).2 = List.replicate (ncols A) 1 := by
  show agreement_scores A A = List.replicate (ncols A) 1
  rw [agreement_scores, dvec, List.zipWith_same]
  have hz : (colMeans A).map (fun a => (a - a) ^ 2) =
      (colMeans A).map (fun _ => (0 : ℚ)) := by
    apply List.map_congr_left
    intro a _
    ring
  rw [hz, List.map_map]
  have hone : ((fun x : ℚ => 1 - x) ∘ fun _ : ℚ => (0 : ℚ)) =
      fun _ : ℚ => (1 : ℚ) := by
    funext x; simp
  rw [hone, List.map_const']
  simp [colMeans]

/-- Witness for C9 at the one-row sample `[[1]]`. -/
theorem c9_witness :
    (agreement_fuzzy [[some 1]] [[some 1]]).2 = List.replicate (ncols [[some 1]]) 1 :=
  c9_self_agreement_scores_one [[some 1]] (by decide) (by decide)

/-- C8: `predict` on a freshly constructed (never fitted) model fails for
every input: the `protos_` attribute was never assigned, so accessing it
raises (modelled by the `none` branch). -/
theorem c8_predict_before_fit_fails (ns sl : ℕ) (agg : List ℚ → ℚ)
    (fac : ℚ → ℚ → ℚ → TriangularSet) (nag : Option ℕ) (eps : ℚ) (seed : ℕ)
    (X : List (List ℚ)) :
    predict (initState ns sl agg fac nag eps seed) X =
      Except.error "AttributeError: object has no attribute protos_" := rfl

/-- C7 (code bug): the NaN-label guard `np.nan in self.classes_` compares with
IEEE `==` and can never be true, so `fit` on a label vector containing NaN
does not raise — it runs its sampling trials and returns a fitted model. -/
theorem c7_nan_label_not_rejected :
    nanInClasses (uniqueWithInverse [some 0, none]).1 = false ∧
    (fit exampleCfg [[some 1], [some 2]] [some 0, none]).isOk = true := by
  constructor
  · exact nanInClasses_eq_false _
  · rfl

/-- C4: `build_memberships` pairs each requested index with the factory
applied to `(mean - (max-min)/2, mean, mean + (max-min)/2)` of that column's
nan-ignoring statistics, and (for the triangular factory) every built
membership satisfies `left ≤ peak ≤ right` whenever the requested columns
have at least one present value. -/
theorem c4_build_memberships {μ : Type} (X : Mat) (idxs : List ℕ)
    (factory : ℚ → ℚ → ℚ → μ) (h : ∀ i ∈ idxs, col X i ≠ []) :
    build_memberships X idxs factory =
      idxs.map (fun i =>
        (i, factory (nanmeanCol X i - ((nanmaxCol X i - nanminCol X i) / 2))
            (nanmeanCol X i)
            (nanmeanCol X i + ((nanmaxCol X i - nanminCol X i) / 2)))) ∧
    ∀ q ∈ build_memberships X idxs triangular_factory,
      q.2.left ≤ q.2.peak ∧ q.2.peak ≤ q.2.right := by
  refine ⟨rfl, ?_⟩
  intro q hq
  rw [build_memberships, List.mem_map] at hq
  obtain ⟨i, hi, hqe⟩ := hq
  have hmm : nanminCol X i ≤ nanmaxCol X i :=
    listMinQ_le_listMaxQ _ (h i hi)
  subst hqe
  constructor
  · show nanmeanCol X i - ((nanmaxCol X i - nanminCol X i) / 2) ≤ nanmeanCol X i
    linarith
  · show nanmeanCol X i ≤ nanmeanCol X i + ((nanmaxCol X i - nanminCol X i) / 2)
    linarith

unseal Rat.add Rat.sub Rat.mul Rat.inv in
/-- Witness for C4: the membership built on the two-row column `[1, 3]`
(mean 2, min 1, max 3) is the triangle `(1, 2, 3)` and satisfies
`left ≤ peak ≤ right`. -/
theorem c4_witness :
    (0, triangular_factory 1 2 3).2.left ≤ (0, triangular_factory 1 2 3).2.peak ∧
    (0, triangular_factory 1 2 3).2.peak ≤ (0, triangular_factory 1 2 3).2.right :=
  (c4_build_memberships [[some 1], [some 3]] [0] triangular_factory
    (by intro i hi; simp at hi; subst hi; decide)).2
    (0, triangular_factory 1 2 3) (by decide)

/-- C1: one trial of the fit loop appends a prototype to the class pool if and
only if the `n_agreeing`-th best per-feature score reaches `epsilon`; a
rejected trial leaves the pool unchanged (and `trial` is total, so no error is
raised), and an accepted trial appends exactly the prototype built by the
membership builder over the full `2 * n_samples`-row sample restricted to the
top-ranked `n_agreeing` feature indices. -/
theorem c1_trial_acceptance (ns : ℕ) (eps : ℚ) (fac : ℚ → ℚ → ℚ → TriangularSet)
    (nag : ℕ) (Xc : Mat) (perm : List ℕ) (pool : List Proto)
    (h1 : 1 ≤ nag) (h2 : nag ≤ (scoresOf ns Xc perm).length)
    (h3 : 2 * ns ≤ Xc.length) (h4 : perm.length = Xc.length) :
    trial ns eps fac nag Xc perm pool =
      (if eps ≤ kthLargest (scoresOf ns Xc perm) nag then
        pool ++ [build_memberships (sampleOf ns Xc perm) (rankingOf ns nag Xc perm) fac]
      else pool) ∧
    (sampleOf ns Xc perm).length = 2 * ns := by
  constructor
  · simp only [trial, rankingOf]
    rw [lastrank_eq_kthLargest _ nag h1 h2]
  · rw [sampleOf, List.length_map, List.length_take, h4]
    exact Nat.min_eq_left h3

unseal Rat.add Rat.sub Rat.mul Rat.inv in
/-- Witness for C1: with two identical one-feature rows, one sample per side
and `n_agreeing = 1`, the single trial is accepted and appends the prototype
built over both rows. -/
theorem c1_witness :
    trial 1 (4/5) triangular_factory 1 [[some 5], [some 5]] [0, 1] [] =
      (if (4/5 : ℚ) ≤ kthLargest (scoresOf 1 [[some 5], [some 5]] [0, 1]) 1 then
        [] ++ [build_memberships (sampleOf 1 [[some 5], [some 5]] [0, 1])
          (rankingOf 1 1 [[some 5], [some 5]] [0, 1]) triangular_factory]
      else []) ∧
    (sampleOf 1 [[some 5], [some 5]] [0, 1]).length = 2 * 1 :=
  c1_trial_acceptance 1 (4/5) triangular_factory 1 [[some 5], [some 5]] [0, 1] []
    (by decide) (by decide) (by decide) (by decide)

/-- C2 (amended): the per-row score of a prototype in `predict` is the
aggregation applied to the `X`-width row of `Mus`: the prototype's
`n_agreeing` membership degrees followed by `width - n_agreeing` padding
zeros (`Mus` is allocated with `X.shape`, not `n_agreeing`, columns). -/
theorem c2_proto_score_padded (agg : List ℚ → ℚ) (nag : ℕ) (x : List ℚ)
    (cp : Proto) (hlen : cp.length = nag) (hle : nag ≤ x.length) :
    protoScore agg nag x cp =
      agg (membershipDegrees x cp ++ List.replicate (x.length - nag) 0) := by
  rw [protoScore]
  congr 1
  apply List.ext_getElem
  · simp [musRow, membershipDegrees, hlen]
    omega
  · intro i hi1 hi2
    have hmus : (musRow nag x.length x cp)[i] =
        (if i < nag then
          TriangularSet.eval (cp.getD i (0, defaultTri)).2
            (x.getD (cp.getD i (0, defaultTri)).1 0)
        else 0) := by
      simp [musRow]
    rw [hmus]
    have hdeg : (membershipDegrees x cp).length = nag := by
      rw [membershipDegrees, List.length_map, hlen]
    by_cases hc : i < nag
    · rw [if_pos hc]
      rw [List.getElem_append_left (by rw [hdeg]; exact hc)]
      have hcpl : i < cp.length := by rw [hlen]; exact hc
      simp only [membershipDegrees, List.getElem_map]
      rw [getD_eq_getElem cp i hcpl]
    · rw [if_neg hc]
      rw [List.getElem_append_right (by rw [hdeg]; exact Nat.le_of_not_lt hc)]
      rw [List.getElem_replicate]

unseal Rat.add Rat.sub Rat.mul Rat.inv in
/-- Counterexample for C2 as stated: with 2 features but `n_agreeing = 1` and
mean aggregation, the score of a prototype whose single membership degree is 1
is `mean [1, 0] = 1/2`, not `mean [1] = 1` — the aggregated vector is not the
`n_agreeing`-wide degree vector. -/
theorem c2_counterexample :
    protoScore flMean 1 [5, 7] [(0, TriangularSet.mk 4 5 6)] ≠
      flMean (membershipDegrees [5, 7] [(0, TriangularSet.mk 4 5 6)]) := by
  decide

unseal Rat.add Rat.sub Rat.mul Rat.inv in
/-- Witness for C2 (amended) at the same concrete prototype and row. -/
theorem c2_witness :
    protoScore flMean 1 [5, 7] [(0, TriangularSet.mk 4 5 6)] =
      flMean (membershipDegrees [5, 7] [(0, TriangularSet.mk 4 5 6)] ++
        List.replicate ([(5 : ℚ), 7].length - 1) 0) :=
  c2_proto_score_padded flMean 1 [5, 7] [(0, TriangularSet.mk 4 5 6)]
    (by decide) (by decide)

/-- C5 (amended): on a fitted model in which some class ended fit with an
empty prototype pool, `predict` raises (the row-wise maximum over the empty
set of prototype score columns has no identity) instead of returning a label
per row. -/
theorem c5_empty_pool_predict_raises (m : RafpcState) (X : Mat) (y : List FVal)
    (m2 : RafpcState) (X2 : List (List ℚ))
    (hfit : fit m X y = Except.ok m2)
    (hempty : ∃ pools, m2.protos_ = some pools ∧ [] ∈ pools) :
    (predict m2 X2).isOk = false := by
  obtain ⟨pools, hp, hmem⟩ := hempty
  have hany : pools.any (fun pool => pool.isEmpty) = true := by
    rw [List.any_eq_true]
    exact ⟨[], hmem, rfl⟩
  simp [predict, hp, hany, except_isOk_error]

unseal Rat.add Rat.sub Rat.mul Rat.inv in
/-- Counterexample for C5 as stated: fitting on `cex5X`/`cex5Y` leaves class 0
with an empty pool, and `predict` then fails instead of returning a label. -/
theorem c5_counterexample :
    cex5M.protos_ = some [[], [[(0, TriangularSet.mk 5 5 5)]]] ∧
    (predict cex5M [[3]]).isOk = false := by
  constructor
  · decide
  · decide

unseal Rat.add Rat.sub Rat.mul Rat.inv in
/-- Witness for C5 (amended) on the concretely fitted model `cex5M`. -/
theorem c5_witness : (predict cex5M [[3]]).isOk = false :=
  c5_empty_pool_predict_raises exampleCfg cex5X cex5Y cex5M [[3]] (by rfl)
    ⟨[[], [[(0, TriangularSet.mk 5 5 5)]]], by decide, by decide⟩

/-- C6: with the random source modelled as a deterministic function of the
stored seed, `fit` is reproducible — fitting the already-fitted model again on
the same inputs returns the very same model, hence `predict` after the second
run agrees with `predict` after the first on every input. -/
theorem c6_fit_predict_deterministic (m : RafpcState) (X : Mat) (y : List FVal)
    (m1 : RafpcState) (h : fit m X y = Except.ok m1) :
    fit m1 X y = Except.ok m1 ∧
    ∀ X2 m2, fit m1 X y = Except.ok m2 → predict m2 X2 = predict m1 X2 := by
  rw [fit_eq] at h
  by_cases hc : ncols X < m.n_agreeing.getD (ncols X)
  · rw [if_pos hc] at h
    exact absurd h (by simp)
  · rw [if_neg hc] at h
    have hm1 : m1 = fitSuccState m X y := by
      cases h
      rfl
    have hself : fit m1 X y = Except.ok m1 := by
      rw [fit_eq]
      have hnag : m1.n_agreeing.getD (ncols X) = m.n_agreeing.getD (ncols X) := by
        rw [hm1]; rfl
      rw [hnag, if_neg hc, hm1]
      rfl
    refine ⟨hself, ?_⟩
    intro X2 m2 h2
    rw [hself] at h2
    cases h2
    rfl

unseal Rat.add Rat.sub Rat.mul Rat.inv in
/-- Witness for C6: refitting the concretely fitted model `cex5M` on the same
data reproduces it exactly. -/
theorem c6_witness : fit cex5M cex5X cex5Y = Except.ok cex5M :=
  (c6_fit_predict_deterministic exampleCfg cex5X cex5Y cex5M (by rfl)).1

/-- C10: when configured with the `n_agreeing = None` sentinel, a successful
fit permanently overwrites the hyperparameter with `X`'s feature count: it is
what `get_params` reports afterwards, and it is the concrete value any
subsequent fit validates against (a later fit fails exactly when its input has
fewer features). -/
theorem c10_n_agreeing_overwritten (m : RafpcState) (X : Mat) (y : List FVal)
    (m2 : RafpcState) (hnone : m.n_agreeing = none)
    (hfit : fit m X y = Except.ok m2) :
    (get_params m2).n_agreeing = some (ncols X) ∧
    ∀ (X2 : Mat) (y2 : List FVal),
      ((fit m2 X2 y2).isOk = false ↔ ncols X2 < ncols X) := by
  rw [fit_eq, hnone] at hfit
  simp only [Option.getD_none, lt_irrefl, if_false] at hfit
  have hm2 : m2 = fitSuccState m X y := by
    cases hfit
    rfl
  have hnag2 : m2.n_agreeing = some (ncols X) := by
    rw [hm2, fitSuccState]
    simp [hnone]
  constructor
  · show m2.n_agreeing = some (ncols X)
    exact hnag2
  · intro X2 y2
    rw [fit_eq, hnag2]
    simp only [Option.getD_some]
    by_cases hc : ncols X2 < ncols X
    · rw [if_pos hc]
      simp only [except_isOk_error]
      simpa using hc
    · rw [if_neg hc]
      simp only [except_isOk_ok]
      simpa using hc

unseal Rat.add Rat.sub Rat.mul Rat.inv in
/-- Witness for C10: fitting with the sentinel on a two-feature matrix makes
`get_params` report `n_agreeing = 2`, and a subsequent fit on a one-feature
matrix fails. -/
theorem c10_witness :
    (get_params cex10M).n_agreeing = some (ncols cex10X) ∧
    ((fit cex10M [[some 1]] [some 0]).isOk = false ↔
      ncols [[some (1 : ℚ)]] < ncols cex10X) :=
  ⟨(c10_n_agreeing_overwritten cex10Cfg cex10X cex10Y cex10M (by rfl) (by rfl)).1,
   (c10_n_agreeing_overwritten cex10Cfg cex10X cex10Y cex10M (by rfl) (by rfl)).2
     [[some 1]] [some 0]⟩

end Rafpc
